import Mathlib

/-!
# Quassel `src/common/main.cpp`: crash reporter and lifecycle of `main`

A shallow embedding of `handle_crash` and `main` of `src/common/main.cpp`.

* A `QString` is a list of characters.
* The Qt calls the source makes (`QString::arg`, `QString::lastIndexOf`,
  `QString::mid`, `QDateTime::toString`) are embedded after the behaviour of
  Qt 4, the library the source is written against.
* The operating system's answers (`backtrace`, `dladdr`, `__cxa_demangle`,
  the clock, the parsed command line, the value `app.exec()` returns) are
  parameters.
* Pointers and `long` values are integers with an explicit width.
-/

set_option maxRecDepth 10000

namespace Quassel

/-! ## Qt strings and number formatting -/

/-- A Qt string: a sequence of characters. -/
abbrev QString := List Char

/-- The text of a C string literal as a `QString`. -/
def lit (s : String) : QString := s.data

/-- The digit value of a character, `QChar::digitValue` on the ASCII digits
(`none` is Qt's `-1`). -/
def digitValue (c : Char) : Option Nat :=
  if 48 ≤ c.toNat ∧ c.toNat ≤ 57 then some (c.toNat - 48) else none

/-- One output digit of `qulltoa`: `'0' + c` below ten, `c - 10 + 'a'` from
ten on. -/
def digitChar (c : Nat) : Char :=
  if c < 10 then Char.ofNat (48 + c) else Char.ofNat (c - 10 + 97)

/-- The digit loop of `qulltoa`: `while (l != 0) { *--p = digit(l % base);
l /= base; }`. The first argument bounds the iterations by the size of the
buffer. -/
def qulltoaLoop (base : Nat) : Nat → Nat → QString → QString
  | 0, _, acc => acc
  | fuel + 1, l, acc =>
    if l = 0 then acc
    else qulltoaLoop base fuel (l / base) (digitChar (l % base) :: acc)

/-- Qt's `qulltoa(l, base)`: the digits of an unsigned 64-bit value, most
significant first, in a buffer of 65 characters; the empty string for 0. -/
def qulltoa (l : Nat) (base : Nat) : QString :=
  qulltoaLoop base 65 l []

/-- Qt's `QLocalePrivate::longLongToString(l, -1, base, width, flags)` in the
C locale, where the only flag is `ZeroPadded`. In base 10 the sign is written
apart; in any other base the 64-bit value is read as unsigned. -/
def longLongToString (l : Int) (base : Nat) (width : Int) (zeroPadded : Bool) :
    QString :=
  let negative : Bool := decide (l < 0) && decide (base = 10)
  let digits : QString :=
    if base = 10 then qulltoa l.natAbs base
    else qulltoa (l % (2 : Int) ^ 64).toNat base
  let num : QString := List.replicate (1 - digits.length) '0' ++ digits
  let padded : QString :=
    if zeroPadded then
      List.replicate
        (width - (num.length : Int) - (if negative then 1 else 0)).toNat '0' ++ num
    else num
  if negative then '-' :: padded else padded

/-! ## Place markers of `QString::arg` -/

/-- The digits of a place marker: one digit, or two when a second follows.
Gives the marker's number and how many characters it takes. -/
def markerDigits : QString → Option (Nat × Nat)
  | [] => none
  | [d] => (digitValue d).map fun a => (a, 1)
  | d :: e :: _ =>
    match digitValue d with
    | none => none
    | some a =>
      match digitValue e with
      | some b => some (10 * a + b, 2)
      | none => some (a, 1)

/-- The place marker that starts right after a `%`: an optional `L`, then
one or two digits. Gives the marker's number and how many characters after
the `%` belong to it. -/
def escapeAt : QString → Option (Nat × Nat)
  | [] => none
  | c :: rest =>
    if c = 'L' then (markerDigits rest).map fun p => (p.1, p.2 + 1)
    else markerDigits (c :: rest)

/-- Qt's `findArgEscapes`: the lowest marker number in the string, `none`
when it has no marker. -/
def findArgEscapes : QString → Option Nat
  | [] => none
  | c :: rest =>
    if c = '%' then
      match escapeAt rest with
      | some (n, _) =>
        some (match findArgEscapes rest with
              | none => n
              | some k => min n k)
      | none => findArgEscapes rest
    else findArgEscapes rest

/-- Qt's `replaceArgEscapes`: every marker numbered `m` is replaced by `rep`,
all other text is copied. The counter is the number of characters of a
replaced marker still to be skipped. -/
def replaceArgEscapes (m : Nat) (rep : QString) : Nat → QString → QString
  | _, [] => []
  | skip + 1, _ :: rest => replaceArgEscapes m rep skip rest
  | 0, c :: rest =>
    if c = '%' then
      match escapeAt rest with
      | some (n, k) =>
        if n = m then rep ++ replaceArgEscapes m rep k rest
        else c :: replaceArgEscapes m rep 0 rest
      | none => c :: replaceArgEscapes m rep 0 rest
    else c :: replaceArgEscapes m rep 0 rest

/-- The text put in place of a marker: the argument padded with `fillChar`
to `|fieldWidth|` characters, on the left for a positive width and on the
right for a negative one. -/
def fieldText (a : QString) (fieldWidth : Int) (fillChar : Char) : QString :=
  let pad := List.replicate (fieldWidth.natAbs - a.length) fillChar
  if 0 < fieldWidth then pad ++ a
  else if fieldWidth < 0 then a ++ pad
  else a

/-- The call `QString::arg(const QString &a, int fieldWidth, const QChar
&fillChar)`: replaces every occurrence of the lowest-numbered marker; a
string without marker is returned unchanged. -/
def argString (s : QString) (a : QString) (fieldWidth : Int) (fillChar : Char) :
    QString :=
  match findArgEscapes s with
  | none => s
  | some m => replaceArgEscapes m (fieldText a fieldWidth fillChar) 0 s

/-- The call `QString::arg(qlonglong a, int fieldWidth, int base, const QChar
&fillChar)`, to which the overloads for `int` and `long` forward. The number
is zero-padded by `longLongToString` when the fill character is `'0'`. The
thousands grouping of a `%L` marker is not modelled. -/
def argLongLong (s : QString) (a : Int) (fieldWidth : Int) (base : Nat)
    (fillChar : Char) : QString :=
  match findArgEscapes s with
  | none => s
  | some m =>
    replaceArgEscapes m
      (fieldText (longLongToString a base fieldWidth (fillChar == '0'))
        fieldWidth fillChar) 0 s

/-- The call `QString::arg(char a, int fieldWidth, const QChar &fillChar)`:
the argument is the one-character string `QLatin1Char(a)`. -/
def argChar (s : QString) (a : Nat) (fieldWidth : Int) (fillChar : Char) :
    QString :=
  argString s [Char.ofNat (a % 256)] fieldWidth fillChar

/-- The call `QString::number(int n)`: the decimal text of `n`. -/
def number (n : Int) : QString :=
  longLongToString n 10 (-1) false

/-- The call `QString::rightJustified(width, fill, truncate)`. -/
def rightJustified (s : QString) (width : Nat) (fill : Char) (truncate : Bool) :
    QString :=
  if s.length < width then List.replicate (width - s.length) fill ++ s
  else if truncate then s.take width
  else s

/-- The backwards search of `QString::lastIndexOf(QChar ch)` below position
`n`; `-1` when `ch` does not occur there. -/
def lastIndexOfFrom (s : QString) (ch : Char) : Nat → Int
  | 0 => -1
  | n + 1 => if s.get? n = some ch then (n : Int) else lastIndexOfFrom s ch n

/-- The call `QString::lastIndexOf(QChar ch)`: the position of the last
occurrence of `ch`, or `-1`. -/
def lastIndexOf (s : QString) (ch : Char) : Int :=
  lastIndexOfFrom s ch s.length

/-- The call `QString::mid(position)`: the text from `position` to the end. -/
def mid (s : QString) (position : Nat) : QString :=
  s.drop position

/-! ## Date and time -/

/-- The local date and time `QDateTime::currentDateTime()` returns. -/
structure QDateTime where
  year : Int
  month : Nat
  day : Nat
  hour : Nat
  minute : Nat
  second : Nat
  msec : Nat
  deriving DecidableEq, Repr

/-- The field ranges of a valid `QDateTime` that the formatting relies on. -/
def QDateTime.wellFormed (t : QDateTime) : Prop :=
  1 ≤ t.month ∧ t.month ≤ 12 ∧ 1 ≤ t.day ∧ t.day ≤ 31 ∧ t.hour ≤ 23 ∧ t.minute ≤ 59

instance (t : QDateTime) : Decidable t.wellFormed := by
  unfold QDateTime.wellFormed
  infer_instance

/-- The call `QDateTime::toString(format)` for the numeric expressions
`yyyy`, `yy`, `MM`, `M`, `dd`, `d`, `hh`, `h`, `mm`, `m`, `ss`, `s` (no AM/PM
in the format, so hours run from 0 to 23); every other character is copied.
Day and month names, milliseconds, AM/PM and quoted text are not modelled:
the format of `handle_crash` has none of them. -/
def QDateTime.toString (t : QDateTime) : QString → QString
  | 'y' :: 'y' :: 'y' :: 'y' :: rest =>
    (if 0 < t.year then [] else ['-'])
      ++ rightJustified (number t.year.natAbs) 4 '0' false ++ QDateTime.toString t rest
  | 'y' :: 'y' :: rest =>
    rightJustified ((number t.year).reverse.take 2).reverse 2 '0' false
      ++ QDateTime.toString t rest
  | 'M' :: 'M' :: rest => rightJustified (number t.month) 2 '0' true ++ QDateTime.toString t rest
  | 'M' :: rest => number t.month ++ QDateTime.toString t rest
  | 'd' :: 'd' :: rest => rightJustified (number t.day) 2 '0' true ++ QDateTime.toString t rest
  | 'd' :: rest => number t.day ++ QDateTime.toString t rest
  | 'h' :: 'h' :: rest => rightJustified (number t.hour) 2 '0' true ++ QDateTime.toString t rest
  | 'h' :: rest => number t.hour ++ QDateTime.toString t rest
  | 'm' :: 'm' :: rest => rightJustified (number t.minute) 2 '0' true ++ QDateTime.toString t rest
  | 'm' :: rest => number t.minute ++ QDateTime.toString t rest
  | 's' :: 's' :: rest => rightJustified (number t.second) 2 '0' true ++ QDateTime.toString t rest
  | 's' :: rest => number t.second ++ QDateTime.toString t rest
  | c :: rest => c :: QDateTime.toString t rest
  | [] => []

/-! ## `handle_crash` -/

/-- The answer of `dladdr`: the fields of `Dl_info`, a null `char *` being
`none`. -/
structure Dl_info where
  dli_fname : Option QString
  dli_fbase : Nat
  dli_sname : Option QString
  dli_saddr : Nat

/-- The constant `addrSize`: 16 under `__LP64__`, 8 otherwise. -/
def addrSize (lp64 : Bool) : Nat :=
  if lp64 then 16 else 8

/-- The width of `long` and of a pointer in bits: 64 under `__LP64__`, 32
otherwise. -/
def longBits (lp64 : Bool) : Nat :=
  if lp64 then 64 else 32

/-- The cast `(long)p` of a pointer: the two's complement reading of its
bits. -/
def toLong (lp64 : Bool) (p : Nat) : Int :=
  let v := p % 2 ^ longBits lp64
  if v < 2 ^ (longBits lp64 - 1) then (v : Int) else (v : Int) - 2 ^ longBits lp64

/-- The variable `funcName` of `handle_crash` (lines 96-107): the demangled
symbol name, the raw name when demangling fails, and without symbol name
`QString("0x%1").arg((long)info.dli_saddr, addrSize, QLatin1Char('0'))`.
With a `QLatin1Char` in third place no integer overload of `arg` applies (it
would need an `int` base there); the call resolves to
`arg(char, int, const QChar &)`, the `long` being converted to `char`. -/
def funcName (lp64 : Bool) (demangle : QString → Option QString) (info : Dl_info) :
    QString :=
  match info.dli_sname with
  | some sname =>
    match demangle sname with
    | some func => func
    | none => sname
  | none =>
    argChar (lit "0x%1") (toLong lp64 info.dli_saddr % 256).toNat (addrSize lp64) '0'

/-- The variable `fileName` of `handle_crash` (lines 109-118). -/
def fileName (info : Dl_info) : QString :=
  match info.dli_fname with
  | none => lit "???"
  | some fname =>
    let slashPos := lastIndexOf fname '/'
    let name := if slashPos ≠ -1 then mid fname (slashPos + 1).toNat else fname
    if name.length < 20 then name ++ List.replicate (20 - name.length) ' '
    else name

/-- The variable `debugLine` of `handle_crash` (lines 120-123). -/
def debugLine (lp64 : Bool) (i : Nat) (file : QString) (addr : Nat) (func : QString) :
    QString :=
  argString
    (argLongLong
      (argString (argLongLong (lit "#%1 %2 0x%3 %4") (i : Int) 3 10 ' ') file 0 ' ')
      (toLong lp64 addr) (addrSize lp64) 16 '0')
    func 0 ' '

/-- The call `backtrace(callstack, size)`: at most `size` return addresses,
innermost first. -/
def backtrace (stack : List Nat) (size : Nat) : List Nat :=
  stack.take size

/-- The loop of `handle_crash` from frame `i` on: one line per frame. -/
def crashLines (lp64 : Bool) (dladdr : Nat → Dl_info)
    (demangle : QString → Option QString) : Nat → List Nat → List QString
  | _, [] => []
  | i, addr :: rest =>
    debugLine lp64 i (fileName (dladdr addr)) addr (funcName lp64 demangle (dladdr addr))
      :: crashLines lp64 dladdr demangle (i + 1) rest

/-- The name of the dump file (line 74):
`QString("Quassel-Crash-%1").arg(now.toString("yyyyMMdd-hhmm.log"))`. -/
def crashFileName (now : QDateTime) : QString :=
  argString (lit "Quassel-Crash-%1") (now.toString (lit "yyyyMMdd-hhmm.log")) 0 ' '

/-- What `handle_crash` leaves behind. -/
structure CrashResult where
  dumpFileName : QString
  dumpStream : QString
  debugOutput : List QString
  exitCode : Int

/-- The function `handle_crash(int sig)`: opens the dump file, writes one line
per captured frame to the file and to the debug output, and calls
`exit(27)`. -/
def handle_crash (lp64 : Bool) (now : QDateTime) (stack : List Nat)
    (dladdr : Nat → Dl_info) (demangle : QString → Option QString) (_sig : Int) :
    CrashResult :=
  let callstack := backtrace stack 128
  let lines := crashLines lp64 dladdr demangle 0 callstack
  { dumpFileName := crashFileName now
    dumpStream := (lines.map fun l => l ++ ['\n']).flatten
    debugOutput := lines
    exitCode := 27 }

/-! ## `main` -/

/-- The build mode: `BUILD_CORE`, `BUILD_QTUI` or `BUILD_MONO`, which `main`
stores in `Global::runMode`. -/
inductive RunMode
  | CoreOnly
  | ClientOnly
  | Monolithic
  deriving DecidableEq, Repr

/-- The code under `#ifndef BUILD_QTUI` is compiled. -/
def RunMode.hasCore : RunMode → Bool
  | .ClientOnly => false
  | _ => true

/-- The code under `#ifndef BUILD_CORE` is compiled. -/
def RunMode.hasGui : RunMode → Bool
  | .CoreOnly => false
  | _ => true

/-- The answers of `Global::parser` that `main` branches on. -/
structure CliParser where
  parse : Bool
  help : Bool
  norestore : Bool
  deriving DecidableEq, Repr

/-- The signals `main` installs a handler for. -/
inductive Signal
  | SIGTERM
  | SIGINT
  | SIGABRT
  | SIGBUS
  | SIGSEGV
  deriving DecidableEq, Repr

/-- The two signal handlers of the file. -/
inductive Handler
  | handle_signal
  | handle_crash
  deriving DecidableEq, Repr

/-- The calls of `main` on the signal table, the parser, the two subsystems
and the event loop, by the statement that makes them. -/
inductive Call
  | signal (sig : Signal) (handler : Handler)
  | registerMetaTypes
  | setupVersion
  | usage
  | coreInstance
  | newQtUi
  | clientInit
  | singleShotGuiInit
  | coreRestoreState
  | resumeSessionIfPossible
  | appExec
  | coreSaveState
  | deleteGui
  | clientDestroy
  | coreDestroy
  deriving DecidableEq, Repr

/-- The function `main`: the calls it makes, in order, and the value it
returns; `loopExit` is the value `app.exec()` returns. The statements between
option parsing and line 235 (log file check, random seed, translators,
codecs, application names) touch none of the calls above and are left
out. -/
def main (mode : RunMode) (cli : CliParser) (loopExit : Int) : List Call × Int :=
  let start : List Call :=
    [.signal .SIGTERM .handle_signal, .signal .SIGINT .handle_signal,
     .signal .SIGABRT .handle_crash, .signal .SIGBUS .handle_crash,
     .signal .SIGSEGV .handle_crash, .registerMetaTypes, .setupVersion]
  if !cli.parse || cli.help then (start ++ [.usage], 1)
  else
    (start
      ++ (if mode.hasCore then [.coreInstance] else [])
      ++ (if mode.hasGui then [.newQtUi, .clientInit, .singleShotGuiInit] else [])
      ++ (if mode.hasCore && !cli.norestore then [.coreRestoreState] else [])
      ++ (if mode.hasGui then [.resumeSessionIfPossible] else [])
      ++ [.appExec]
      ++ (if mode.hasCore then [.coreSaveState] else [])
      ++ (if mode.hasGui then [.deleteGui, .clientDestroy] else [])
      ++ (if mode.hasCore then [.coreDestroy] else []),
     loopExit)

/-- The text `arg(i, 3, 10)` puts in place of `%1`: the frame index. -/
def indexField (i : Nat) : QString :=
  fieldText (longLongToString (i : Int) 10 3 (' ' == '0')) 3 ' '

/-- The text `arg((long)(callstack[i]), addrSize, 16, QLatin1Char('0'))` puts
in place of `%3`: the return address. -/
def addrField (lp64 : Bool) (addr : Nat) : QString :=
  fieldText (longLongToString (toLong lp64 addr) 16 (addrSize lp64) ('0' == '0'))
    (addrSize lp64) '0'

/-! ## Reading a trace of calls -/

/-- The two subsystems of the process: the service object (`Core`) and the
interactive object (the `QtUi` window with its `Client`). -/
inductive Subsystem
  | service
  | interactive
  deriving DecidableEq, Repr

/-- The subsystem a call constructs, if any. -/
def Call.constructs : Call → Option Subsystem
  | .coreInstance => some .service
  | .newQtUi => some .interactive
  | .clientInit => some .interactive
  | _ => none

/-- The subsystem a call destroys, if any. -/
def Call.destroys : Call → Option Subsystem
  | .deleteGui => some .interactive
  | .clientDestroy => some .interactive
  | .coreDestroy => some .service
  | _ => none

/-- The call `c` is made exactly once in the trace. -/
def occursOnce (c : Call) (calls : List Call) : Prop :=
  calls.count c = 1

/-- Both calls are made, and the first `a` comes before the first `b`. -/
def before (a b : Call) (calls : List Call) : Prop :=
  calls.indexOf a < calls.indexOf b ∧ calls.indexOf b < calls.length

instance (c : Call) (calls : List Call) : Decidable (occursOnce c calls) := by
  unfold occursOnce
  infer_instance

instance (a b : Call) (calls : List Call) : Decidable (before a b calls) := by
  unfold before
  infer_instance

/-! ## Reading a report line -/

/-- The value of a hexadecimal digit, in either case. -/
def hexDigitValue (c : Char) : Option Nat :=
  if 48 ≤ c.toNat ∧ c.toNat ≤ 57 then some (c.toNat - 48)
  else if 97 ≤ c.toNat ∧ c.toNat ≤ 102 then some (c.toNat - 87)
  else if 65 ≤ c.toNat ∧ c.toNat ≤ 70 then some (c.toNat - 55)
  else none

/-- Reads digits of the given base, most significant first, onto `acc`;
`none` at a character that is not a digit of the base. -/
def parseDigitsFrom (base : Nat) : Nat → QString → Option Nat
  | acc, [] => some acc
  | acc, c :: rest =>
    match hexDigitValue c with
    | none => none
    | some d => if d < base then parseDigitsFrom base (acc * base + d) rest else none

/-- The number a non-empty string of hexadecimal digits denotes. -/
def parseHex (s : QString) : Option Nat :=
  if s = [] then none else parseDigitsFrom 16 0 s

/-- The final component of a path: the text after the last `/`, all of the
path when it has none. -/
def finalComponent (p : QString) : QString :=
  (p.reverse.takeWhile fun c => c != '/').reverse

/-- The number `n` written with `k` decimal digits, leading zeros
included. -/
def decimalDigits : Nat → Nat → QString
  | 0, _ => []
  | k + 1, n => decimalDigits k (n / 10) ++ [Char.ofNat (48 + n % 10)]

/-- Two capture times fall in the same calendar minute. -/
def sameMinute (s t : QDateTime) : Prop :=
  s.year = t.year ∧ s.month = t.month ∧ s.day = t.day ∧ s.hour = t.hour
    ∧ s.minute = t.minute

/-- The capture time truncated to the minute. -/
def truncateToMinute (t : QDateTime) : QDateTime :=
  { t with second := 0, msec := 0 }

/-! ## Place markers: text without `%` is copied -/

theorem findArgEscapes_append_left (p t : QString) (hp : '%' ∉ p) :
    findArgEscapes (p ++ t) = findArgEscapes t := by
  induction p with
  | nil => rfl
  | cons c p ih =>
    have hc : c ≠ '%' := fun h => hp (by simp [h])
    have hp' : '%' ∉ p := fun h => hp (by simp [h])
    simp [findArgEscapes, hc, ih hp']

theorem replaceArgEscapes_append_left (m : Nat) (rep p t : QString) (hp : '%' ∉ p) :
    replaceArgEscapes m rep 0 (p ++ t) = p ++ replaceArgEscapes m rep 0 t := by
  induction p with
  | nil => rfl
  | cons c p ih =>
    have hc : c ≠ '%' := fun h => hp (by simp [h])
    have hp' : '%' ∉ p := fun h => hp (by simp [h])
    simp [replaceArgEscapes, hc, ih hp']

theorem argString_append_left (p t a : QString) (w : Int) (f : Char) (hp : '%' ∉ p) :
    argString (p ++ t) a w f = p ++ argString t a w f := by
  unfold argString
  rw [findArgEscapes_append_left p t hp]
  cases findArgEscapes t with
  | none => rfl
  | some m => exact replaceArgEscapes_append_left m _ p t hp

theorem argLongLong_append_left (p t : QString) (a w : Int) (b : Nat) (f : Char)
    (hp : '%' ∉ p) :
    argLongLong (p ++ t) a w b f = p ++ argLongLong t a w b f := by
  unfold argLongLong
  rw [findArgEscapes_append_left p t hp]
  cases findArgEscapes t with
  | none => rfl
  | some m => exact replaceArgEscapes_append_left m _ p t hp

/-! ## Number text has no `%` -/

theorem digitChar_ne_percent (d : Nat) (h : d < 16) : digitChar d ≠ '%' := by
  interval_cases d <;> decide

theorem qulltoaLoop_no_percent (base : Nat) (hb : 0 < base) (hb16 : base ≤ 16)
    (fuel l : Nat) (acc : QString) (hacc : '%' ∉ acc) :
    '%' ∉ qulltoaLoop base fuel l acc := by
  induction fuel generalizing l acc with
  | zero => simpa [qulltoaLoop] using hacc
  | succ fuel ih =>
    unfold qulltoaLoop
    split
    · exact hacc
    · apply ih
      have hd : l % base < 16 := lt_of_lt_of_le (Nat.mod_lt l hb) hb16
      have hne := digitChar_ne_percent (l % base) hd
      intro hmem
      rcases List.mem_cons.mp hmem with h | h
      · exact hne h.symm
      · exact hacc h

theorem longLongToString_no_percent (l : Int) (base : Nat) (hb : 0 < base)
    (hb16 : base ≤ 16) (w : Int) (z : Bool) :
    '%' ∉ longLongToString l base w z := by
  have hq : ∀ n : Nat, '%' ∉ qulltoa n base := fun n =>
    qulltoaLoop_no_percent base hb hb16 65 n [] (by simp)
  have hrep : ∀ k : Nat, '%' ∉ List.replicate k '0' := by
    intro k hmem
    have := List.eq_of_mem_replicate hmem
    exact absurd this (by decide)
  unfold longLongToString
  simp only []
  have hdig : '%' ∉ (if base = 10 then qulltoa l.natAbs base
      else qulltoa (l % (2 : Int) ^ 64).toNat base) := by
    split
    · exact hq _
    · exact hq _
  split <;> split <;>
    simp only [List.mem_cons, List.mem_append, not_or] <;>
    first
      | exact ⟨by decide, hrep _, hrep _, hdig⟩
      | exact ⟨by decide, hrep _, hdig⟩
      | exact ⟨hrep _, hrep _, hdig⟩
      | exact ⟨hrep _, hdig⟩

theorem fieldText_no_percent (a : QString) (w : Int) (f : Char) (ha : '%' ∉ a)
    (hf : f ≠ '%') : '%' ∉ fieldText a w f := by
  have hrep : ∀ k : Nat, '%' ∉ List.replicate k f := by
    intro k hmem
    exact hf (List.eq_of_mem_replicate hmem).symm
  unfold fieldText
  simp only []
  split
  · simp only [List.mem_append, not_or]; exact ⟨hrep _, ha⟩
  · split
    · simp only [List.mem_append, not_or]; exact ⟨ha, hrep _⟩
    · exact ha

theorem indexField_no_percent (i : Nat) : '%' ∉ indexField i :=
  fieldText_no_percent _ _ _
    (longLongToString_no_percent _ 10 (by decide) (by decide) _ _) (by decide)

theorem addrField_no_percent (lp64 : Bool) (addr : Nat) : '%' ∉ addrField lp64 addr :=
  fieldText_no_percent _ _ _
    (longLongToString_no_percent _ 16 (by decide) (by decide) _ _) (by decide)

/-! ## The report line, marker by marker -/

theorem fieldText_zero_width (a : QString) (f : Char) : fieldText a 0 f = a := by
  simp [fieldText]

theorem arg_marker1 (i : Nat) :
    argLongLong (lit "#%1 %2 0x%3 %4") (i : Int) 3 10 ' '
      = ('#' :: indexField i ++ [' ']) ++ lit "%2 0x%3 %4" := by
  have hfind : findArgEscapes (lit "#%1 %2 0x%3 %4") = some 1 := by decide
  unfold argLongLong
  rw [hfind]
  simp [lit, replaceArgEscapes, escapeAt, markerDigits, digitValue, indexField]

theorem arg_marker2 (a : QString) :
    argString (lit "%2 0x%3 %4") a 0 ' ' = (a ++ lit " 0x") ++ lit "%3 %4" := by
  have hfind : findArgEscapes (lit "%2 0x%3 %4") = some 2 := by decide
  unfold argString
  rw [hfind, fieldText_zero_width]
  simp [lit, replaceArgEscapes, escapeAt, markerDigits, digitValue]

theorem arg_marker3 (lp64 : Bool) (addr : Nat) :
    argLongLong (lit "%3 %4") (toLong lp64 addr) (addrSize lp64) 16 '0'
      = (addrField lp64 addr ++ [' ']) ++ lit "%4" := by
  have hfind : findArgEscapes (lit "%3 %4") = some 3 := by decide
  unfold argLongLong
  rw [hfind]
  simp [lit, replaceArgEscapes, escapeAt, markerDigits, digitValue, addrField]

theorem arg_marker4 (a : QString) : argString (lit "%4") a 0 ' ' = a := by
  have hfind : findArgEscapes (lit "%4") = some 4 := by decide
  unfold argString
  rw [hfind, fieldText_zero_width]
  simp [lit, replaceArgEscapes, escapeAt, markerDigits, digitValue]

/-- The report line as a concatenation, for a module field without `%`. -/
theorem debugLine_eq (lp64 : Bool) (i : Nat) (file : QString) (addr : Nat)
    (func : QString) (hfile : '%' ∉ file) :
    debugLine lp64 i file addr func
      = '#' :: indexField i ++ ' ' :: file ++ lit " 0x" ++ addrField lp64 addr
          ++ ' ' :: func := by
  have h1 : '%' ∉ ('#' :: indexField i ++ [' ']) := by
    have := indexField_no_percent i
    simp [this]
  have h2 : '%' ∉ (('#' :: indexField i ++ [' ']) ++ (file ++ lit " 0x")) := by
    simp only [List.mem_append, not_or]
    refine ⟨?_, hfile, by decide⟩
    simpa only [List.mem_append, not_or] using h1
  have h3 : '%' ∉ ((('#' :: indexField i ++ [' ']) ++ (file ++ lit " 0x"))
      ++ (addrField lp64 addr ++ [' '])) := by
    have := addrField_no_percent lp64 addr
    simp only [List.mem_append, not_or] at h2 ⊢
    exact ⟨h2, this, by decide⟩
  unfold debugLine
  rw [arg_marker1, argString_append_left _ _ _ _ _ h1, arg_marker2,
    ← List.append_assoc, argLongLong_append_left _ _ _ _ _ _ h2, arg_marker3,
    ← List.append_assoc, argString_append_left _ _ _ _ _ h3, arg_marker4]
  simp [lit]

/-- Whatever the later arguments are, the line starts with `#`, the index
field and a blank. -/
theorem debugLine_start (lp64 : Bool) (i : Nat) (file : QString) (addr : Nat)
    (func : QString) :
    ∃ rest, debugLine lp64 i file addr func = '#' :: indexField i ++ ' ' :: rest := by
  have h1 : '%' ∉ ('#' :: indexField i ++ [' ']) := by
    have := indexField_no_percent i
    simp [this]
  unfold debugLine
  rw [arg_marker1, argString_append_left _ _ _ _ _ h1,
    argLongLong_append_left _ _ _ _ _ _ h1, argString_append_left _ _ _ _ _ h1]
  generalize argString _ func 0 ' ' = r
  exact ⟨r, by simp⟩

/-! ## Digits written by `qulltoa` read back -/

theorem qulltoaLoop_acc (b fuel l : Nat) (acc : QString) :
    qulltoaLoop b fuel l acc = qulltoaLoop b fuel l [] ++ acc := by
  induction fuel generalizing l acc with
  | zero => simp [qulltoaLoop]
  | succ fuel ih =>
    unfold qulltoaLoop
    split
    · simp
    · rw [ih (l / b) (digitChar (l % b) :: acc), ih (l / b) [digitChar (l % b)]]
      simp

theorem qulltoaLoop_of_zero (b fuel : Nat) : qulltoaLoop b fuel 0 [] = [] := by
  cases fuel <;> simp [qulltoaLoop]

theorem qulltoaLoop_step (b fuel l : Nat) (hl : l ≠ 0) :
    qulltoaLoop b (fuel + 1) l [] = qulltoaLoop b fuel (l / b) [] ++ [digitChar (l % b)] := by
  conv_lhs => unfold qulltoaLoop
  rw [if_neg hl, qulltoaLoop_acc]

theorem hexDigitValue_digitChar (d : Nat) (hd : d < 16) :
    hexDigitValue (digitChar d) = some d := by
  interval_cases d <;> decide

theorem parseDigitsFrom_snoc (b : Nat) (s : QString) (c : Char) (acc : Nat) :
    parseDigitsFrom b acc (s ++ [c])
      = (parseDigitsFrom b acc s).bind fun v =>
          (hexDigitValue c).bind fun d => if d < b then some (v * b + d) else none := by
  induction s generalizing acc with
  | nil =>
    simp only [List.nil_append, parseDigitsFrom, Option.some_bind]
    cases hexDigitValue c with
    | none => rfl
    | some d => by_cases h : d < b <;> simp [h, parseDigitsFrom]
  | cons x s ih =>
    simp only [List.cons_append, parseDigitsFrom]
    cases hexDigitValue x with
    | none => rfl
    | some d =>
      by_cases h : d < b
      · simp only [h, if_true]; exact ih _
      · simp [h]

theorem parse_qulltoaLoop (b : Nat) (hb2 : 2 ≤ b) (hb16 : b ≤ 16) (fuel l : Nat)
    (hl : l < b ^ fuel) : parseDigitsFrom b 0 (qulltoaLoop b fuel l []) = some l := by
  induction fuel generalizing l with
  | zero =>
    have : l = 0 := by simpa using hl
    subst this
    rfl
  | succ fuel ih =>
    by_cases h0 : l = 0
    · subst h0
      rw [qulltoaLoop_of_zero]
      rfl
    · have hdiv : l / b < b ^ fuel := by
        apply Nat.div_lt_of_lt_mul
        rw [pow_succ] at hl
        rw [Nat.mul_comm]
        exact hl
      have hmod : l % b < b := Nat.mod_lt l (by omega)
      rw [qulltoaLoop_step b fuel l h0, parseDigitsFrom_snoc, ih (l / b) hdiv,
        hexDigitValue_digitChar (l % b) (by omega)]
      simp only [Option.some_bind, hmod, if_true]
      rw [Nat.div_add_mod' l b]

theorem length_qulltoaLoop_le (b : Nat) (fuel l k : Nat) (hl : l < b ^ k) :
    (qulltoaLoop b fuel l []).length ≤ k := by
  induction fuel generalizing l k with
  | zero => simp [qulltoaLoop]
  | succ fuel ih =>
    by_cases h0 : l = 0
    · subst h0
      rw [qulltoaLoop_of_zero]
      simp
    · cases k with
      | zero => simp at hl; exact absurd hl h0
      | succ k =>
        have hdiv : l / b < b ^ k := by
          apply Nat.div_lt_of_lt_mul
          rw [pow_succ] at hl
          rw [Nat.mul_comm]
          exact hl
        rw [qulltoaLoop_step b fuel l h0]
        simp only [List.length_append, List.length_singleton]
        have := ih (l / b) k hdiv
        omega

theorem parseDigitsFrom_zeros (b : Nat) (hb : 0 < b) (j : Nat) (s : QString) :
    parseDigitsFrom b 0 (List.replicate j '0' ++ s) = parseDigitsFrom b 0 s := by
  induction j with
  | zero => rfl
  | succ j ih =>
    have h0 : hexDigitValue '0' = some 0 := by decide
    simp only [List.replicate_succ, List.cons_append, parseDigitsFrom, h0, hb, if_true]
    simpa using ih

/-- The text of `longLongToString` in base 16, zero-padded to `w`, for a
value whose unsigned reading `n` fits in `w` digits. -/
theorem longLongToString_hex (l : Int) (w n : Nat) (hw : 1 ≤ w) (hw65 : w ≤ 65)
    (hn : (l % (2 : Int) ^ 64).toNat = n) (hlt : n < 16 ^ w) :
    (longLongToString l 16 (w : Int) true).length = w
    ∧ parseDigitsFrom 16 0 (longLongToString l 16 (w : Int) true) = some n := by
  have hlen : (qulltoa n 16).length ≤ w := length_qulltoaLoop_le 16 65 n w hlt
  have hparse : parseDigitsFrom 16 0 (qulltoa n 16) = some n :=
    parse_qulltoaLoop 16 (by decide) (by decide) 65 n
      (lt_of_lt_of_le hlt (Nat.pow_le_pow_right (by decide) hw65))
  unfold longLongToString
  simp only [hn, show ¬ ((16 : Nat) = 10) by decide, if_false, decide_False, Bool.and_false,
    if_true, Bool.false_eq_true]
  constructor
  · simp only [List.length_append, List.length_replicate]
    omega
  · rw [parseDigitsFrom_zeros 16 (by decide), parseDigitsFrom_zeros 16 (by decide)]
    exact hparse

theorem addrField_of_fits (lp64 : Bool) (a n : Nat)
    (hn : (toLong lp64 a % (2 : Int) ^ 64).toNat = n) (hlt : n < 16 ^ addrSize lp64) :
    (addrField lp64 a).length = addrSize lp64
    ∧ parseHex (addrField lp64 a) = some n := by
  have hw : 1 ≤ addrSize lp64 := by cases lp64 <;> decide
  have hw65 : addrSize lp64 ≤ 65 := by cases lp64 <;> decide
  obtain ⟨h1, h2⟩ := longLongToString_hex (toLong lp64 a) (addrSize lp64) n hw hw65 hn hlt
  have hfield : addrField lp64 a
      = longLongToString (toLong lp64 a) 16 (addrSize lp64 : Int) true := by
    unfold addrField fieldText
    simp only [h1, show (('0' : Char) == '0') = true by decide, Int.natAbs_ofNat,
      Nat.sub_self, List.replicate_zero, List.nil_append, List.append_nil, ite_self]
  rw [hfield]
  refine ⟨h1, ?_⟩
  unfold parseHex
  rw [if_neg, h2]
  intro hnil
  rw [hnil] at h1
  simp at h1
  omega

theorem toLong_unsigned_64 (a : Nat) (ha : a < 2 ^ 64) :
    (toLong true a % (2 : Int) ^ 64).toNat = a := by
  unfold toLong longBits
  simp only [if_true]
  norm_num at ha ⊢
  rw [Nat.mod_eq_of_lt ha]
  split <;> omega

theorem toLong_unsigned_32 (a : Nat) (ha : a < 2 ^ 31) :
    (toLong false a % (2 : Int) ^ 64).toNat = a := by
  unfold toLong longBits
  simp only [Bool.false_eq_true, if_false]
  norm_num at ha ⊢
  rw [Nat.mod_eq_of_lt (by omega)]
  split <;> omega

/-- On a 64-bit build the address field has sixteen digits and reads back as
the address, for every 64-bit address. -/
theorem addrField_64bit (a : Nat) (ha : a < 2 ^ 64) :
    (addrField true a).length = 16 ∧ parseHex (addrField true a) = some a :=
  addrField_of_fits true a a (toLong_unsigned_64 a ha) (by simpa [addrSize] using ha)

/-- On a 32-bit build the address field has eight digits and reads back as
the address, for every address below `0x80000000`. -/
theorem addrField_32bit_low (a : Nat) (ha : a < 2 ^ 31) :
    (addrField false a).length = 8 ∧ parseHex (addrField false a) = some a :=
  addrField_of_fits false a a (toLong_unsigned_32 a ha)
    (by simp only [addrSize]; norm_num at ha ⊢; omega)

/-! ## The module field -/

theorem lastIndexOfFrom_append (s t : QString) (ch : Char) (n : Nat) (hn : n ≤ s.length) :
    lastIndexOfFrom (s ++ t) ch n = lastIndexOfFrom s ch n := by
  induction n with
  | zero => rfl
  | succ n ih =>
    have hlt : n < s.length := hn
    simp only [lastIndexOfFrom, List.get?_eq_getElem?, List.getElem?_append_left hlt]
    rw [ih (Nat.le_of_lt hlt)]

theorem lastIndexOfFrom_range (s : QString) (ch : Char) (n : Nat) :
    lastIndexOfFrom s ch n = -1 ∨ ∃ k : Nat, k < n ∧ lastIndexOfFrom s ch n = (k : Int) := by
  induction n with
  | zero => exact Or.inl rfl
  | succ n ih =>
    unfold lastIndexOfFrom
    split
    · exact Or.inr ⟨n, Nat.lt_succ_self n, rfl⟩
    · rcases ih with h | ⟨k, hk, h⟩
      · exact Or.inl h
      · exact Or.inr ⟨k, Nat.lt_succ_of_lt hk, h⟩

theorem lastIndexOf_snoc (s : QString) (x ch : Char) :
    lastIndexOf (s ++ [x]) ch = if x = ch then (s.length : Int) else lastIndexOf s ch := by
  unfold lastIndexOf
  simp only [List.length_append, List.length_singleton, lastIndexOfFrom,
    List.get?_eq_getElem?, List.getElem?_concat_length, Option.some.injEq]
  split
  · rfl
  · exact lastIndexOfFrom_append s [x] ch s.length (Nat.le_refl _)

theorem finalComponent_snoc (s : QString) (x : Char) :
    finalComponent (s ++ [x]) = if x = '/' then [] else finalComponent s ++ [x] := by
  unfold finalComponent
  simp only [List.reverse_append, List.reverse_singleton, List.singleton_append,
    List.takeWhile_cons]
  by_cases h : x = '/'
  · simp [h]
  · simp [h]

/-- The path stripped as `handle_crash` does it is the final component. -/
theorem strip_eq_finalComponent (s : QString) :
    (if lastIndexOf s '/' ≠ -1 then mid s (lastIndexOf s '/' + 1).toNat else s)
      = finalComponent s := by
  induction s using List.reverseRecOn with
  | nil => rfl
  | append_singleton s x ih =>
    rw [lastIndexOf_snoc, finalComponent_snoc]
    by_cases hx : x = '/'
    · simp only [hx, if_true]
      have hne : ((s.length : Int)) ≠ -1 := by omega
      rw [if_pos hne]
      unfold mid
      have : ((s.length : Int) + 1).toNat = s.length + 1 := by omega
      rw [this]
      simp
    · simp only [hx, if_false]
      rcases lastIndexOfFrom_range s '/' s.length with h | ⟨k, hk, h⟩
      · have h' : lastIndexOf s '/' = -1 := h
        rw [h'] at ih ⊢
        simp only [ne_eq, not_true_eq_false, if_false] at ih ⊢
        rw [← ih]
      · have h' : lastIndexOf s '/' = (k : Int) := h
        rw [h'] at ih ⊢
        have hne : ((k : Int)) ≠ -1 := by omega
        have hk1 : ((k : Int) + 1).toNat = k + 1 := by omega
        rw [if_pos hne, hk1] at ih ⊢
        unfold mid at ih ⊢
        rw [← ih, List.drop_append_of_le_length (by omega)]

theorem slash_not_mem_finalComponent (s : QString) : '/' ∉ finalComponent s := by
  unfold finalComponent
  intro hmem
  have h := List.mem_takeWhile_imp (List.mem_reverse.mp hmem)
  simp at h

theorem finalComponent_suffix (s : QString) :
    ∃ pre, s = pre ++ finalComponent s ∧ (pre = [] ∨ ∃ q, pre = q ++ ['/']) := by
  induction s using List.reverseRecOn with
  | nil => exact ⟨[], rfl, Or.inl rfl⟩
  | append_singleton s x ih =>
    rw [finalComponent_snoc]
    by_cases hx : x = '/'
    · subst hx
      exact ⟨s ++ ['/'], by simp, Or.inr ⟨s, rfl⟩⟩
    · obtain ⟨pre, hs, hpre⟩ := ih
      refine ⟨pre, ?_, hpre⟩
      simp only [hx, if_false]
      rw [← List.append_assoc, ← hs]

/-- The variable `fileName` for a module path `p`: the final component of
`p` followed by blanks up to 20 characters. -/
theorem fileName_of_path (info : Dl_info) (p : QString) (hp : info.dli_fname = some p) :
    fileName info
      = finalComponent p ++ List.replicate (20 - (finalComponent p).length) ' '
    ∧ '/' ∉ fileName info
    ∧ (fileName info).length = max 20 (finalComponent p).length
    ∧ finalComponent p <+: fileName info := by
  have hslash := slash_not_mem_finalComponent p
  have hfield : fileName info
      = finalComponent p ++ List.replicate (20 - (finalComponent p).length) ' ' := by
    have hstrip := strip_eq_finalComponent p
    unfold fileName
    simp only [hp]
    rw [hstrip]
    split
    · rfl
    · rw [show 20 - (finalComponent p).length = 0 by omega]
      simp
  refine ⟨hfield, ?_, ?_, ?_⟩
  · rw [hfield]
    intro hmem
    rcases List.mem_append.mp hmem with h | h
    · exact hslash h
    · exact absurd (List.eq_of_mem_replicate h) (by decide)
  · rw [hfield]
    simp only [List.length_append, List.length_replicate]
    omega
  · rw [hfield]
    exact List.prefix_append _ _

theorem percent_not_mem_fileName (info : Dl_info) (p : QString)
    (hp : info.dli_fname = some p) (hpc : '%' ∉ finalComponent p) :
    '%' ∉ fileName info := by
  rw [(fileName_of_path info p hp).1]
  intro hmem
  rcases List.mem_append.mp hmem with h | h
  · exact hpc h
  · exact absurd (List.eq_of_mem_replicate h) (by decide)

/-- The report line carries the variable `fileName` unchanged in the module
column when the final component of the path has no `%`, whatever the
directories before it are called. -/
theorem debugLine_of_path (lp64 : Bool) (i : Nat) (info : Dl_info) (p : QString)
    (addr : Nat) (func : QString) (hp : info.dli_fname = some p)
    (hpc : '%' ∉ finalComponent p) :
    debugLine lp64 i (fileName info) addr func
      = lit "#" ++ indexField i ++ lit " " ++ finalComponent p
          ++ List.replicate (20 - (finalComponent p).length) ' ' ++ lit " 0x"
          ++ addrField lp64 addr ++ lit " " ++ func := by
  rw [debugLine_eq lp64 i (fileName info) addr func
    (percent_not_mem_fileName info p hp hpc), (fileName_of_path info p hp).1]
  simp [lit]

/-! ## The dump file name -/

theorem decimalDigits_length (k n : Nat) : (decimalDigits k n).length = k := by
  induction k generalizing n with
  | zero => rfl
  | succ k ih => simp [decimalDigits, ih]

theorem decimalDigits_of_zero (k : Nat) : decimalDigits k 0 = List.replicate k '0' := by
  induction k with
  | zero => rfl
  | succ k ih =>
    simp only [decimalDigits, Nat.zero_div, Nat.zero_mod, ih]
    rw [List.replicate_succ']

theorem digitChar_decimal (d : Nat) (hd : d < 10) : digitChar d = Char.ofNat (48 + d) := by
  simp [digitChar, hd]

theorem pad_qulltoaLoop (k fuel n : Nat) (hk : k ≤ fuel) (hn : n < 10 ^ k) :
    List.replicate (k - (qulltoaLoop 10 fuel n []).length) '0' ++ qulltoaLoop 10 fuel n []
      = decimalDigits k n := by
  induction k generalizing n fuel with
  | zero =>
    have : n = 0 := by simpa using hn
    subst this
    rw [qulltoaLoop_of_zero]
    rfl
  | succ k ih =>
    by_cases h0 : n = 0
    · subst h0
      rw [qulltoaLoop_of_zero, decimalDigits_of_zero]
      simp
    · obtain ⟨fuel, rfl⟩ : ∃ f, fuel = f + 1 := ⟨fuel - 1, by omega⟩
      have hdiv : n / 10 < 10 ^ k := by
        apply Nat.div_lt_of_lt_mul
        rw [pow_succ] at hn
        omega
      rw [qulltoaLoop_step 10 fuel n h0, decimalDigits, ← ih fuel (n / 10) (by omega) hdiv,
        digitChar_decimal (n % 10) (Nat.mod_lt n (by decide))]
      simp only [List.length_append, List.length_singleton, Nat.add_sub_add_right,
        List.append_assoc]

theorem number_natCast (n : Nat) :
    number (n : Int) = List.replicate (1 - (qulltoa n 10).length) '0' ++ qulltoa n 10 := by
  have hneg : ¬ ((n : Int) < 0) := by omega
  simp [number, longLongToString, hneg]

theorem rightJustified_number (n k : Nat) (hk1 : 1 ≤ k) (hk : k ≤ 65) (hn : n < 10 ^ k)
    (truncate : Bool) :
    rightJustified (number (n : Int)) k '0' truncate = decimalDigits k n := by
  have hlen : (qulltoa n 10).length ≤ k := length_qulltoaLoop_le 10 65 n k hn
  have hpad := pad_qulltoaLoop k 65 n hk hn
  rw [← hpad, number_natCast]
  unfold rightJustified
  change (if (List.replicate (1 - (qulltoa n 10).length) '0' ++ qulltoa n 10).length < k
      then _ else _) = List.replicate (k - (qulltoa n 10).length) '0' ++ qulltoa n 10
  simp only [List.length_append, List.length_replicate]
  split
  · rw [← List.append_assoc, ← List.replicate_add]
    congr 2
    omega
  · have hk' : 1 - (qulltoa n 10).length + (qulltoa n 10).length = k := by omega
    have htake : (List.replicate (1 - (qulltoa n 10).length) '0' ++ qulltoa n 10).take k
        = List.replicate (1 - (qulltoa n 10).length) '0' ++ qulltoa n 10 := by
      apply List.take_of_length_le
      simp only [List.length_append, List.length_replicate]
      omega
    have hrep : 1 - (qulltoa n 10).length = k - (qulltoa n 10).length := by omega
    split
    · rw [htake, hrep]
    · rw [hrep]

theorem decimalChar_inj (a b : Nat) (ha : a < 10) (hb : b < 10)
    (h : Char.ofNat (48 + a) = Char.ofNat (48 + b)) : a = b := by
  revert h
  interval_cases a <;> interval_cases b <;> decide

theorem decimalDigits_inj (k n m : Nat) (hn : n < 10 ^ k) (hm : m < 10 ^ k)
    (h : decimalDigits k n = decimalDigits k m) : n = m := by
  induction k generalizing n m with
  | zero =>
    have h1 : n = 0 := by simpa using hn
    have h2 : m = 0 := by simpa using hm
    rw [h1, h2]
  | succ k ih =>
    simp only [decimalDigits] at h
    have hsplit := List.append_inj h (by simp [decimalDigits_length])
    have hdn : n / 10 < 10 ^ k := by
      apply Nat.div_lt_of_lt_mul
      rw [pow_succ] at hn
      omega
    have hdm : m / 10 < 10 ^ k := by
      apply Nat.div_lt_of_lt_mul
      rw [pow_succ] at hm
      omega
    have hq := ih (n / 10) (m / 10) hdn hdm hsplit.1
    have hr := decimalChar_inj (n % 10) (m % 10) (Nat.mod_lt n (by decide))
      (Nat.mod_lt m (by decide)) (by simpa using hsplit.2)
    omega

theorem toString_crash_format (t : QDateTime) (hy : 0 < t.year) :
    t.toString (lit "yyyyMMdd-hhmm.log")
      = rightJustified (number t.year.natAbs) 4 '0' false
        ++ rightJustified (number t.month) 2 '0' true
        ++ rightJustified (number t.day) 2 '0' true
        ++ lit "-"
        ++ rightJustified (number t.hour) 2 '0' true
        ++ rightJustified (number t.minute) 2 '0' true
        ++ lit ".log" := by
  simp [QDateTime.toString, lit, hy]

theorem arg_crash_name (a : QString) :
    argString (lit "Quassel-Crash-%1") a 0 ' ' = lit "Quassel-Crash-" ++ a := by
  have hfind : findArgEscapes (lit "Quassel-Crash-%1") = some 1 := by decide
  unfold argString
  rw [hfind, fieldText_zero_width]
  simp [lit, replaceArgEscapes, escapeAt, markerDigits, digitValue]

/-- The dump file name of a capture time with a year from 1 to 9999. -/
theorem crashFileName_eq (t : QDateTime) (hwf : t.wellFormed) (hy : 1 ≤ t.year)
    (hy' : t.year ≤ 9999) :
    crashFileName t
      = lit "Quassel-Crash-" ++ (decimalDigits 4 t.year.toNat ++ (decimalDigits 2 t.month
          ++ (decimalDigits 2 t.day ++ (lit "-" ++ (decimalDigits 2 t.hour
          ++ (decimalDigits 2 t.minute ++ lit ".log")))))) := by
  obtain ⟨_, hM, _, hD, hh, hm⟩ := hwf
  have hyear : t.year.natAbs = t.year.toNat := by omega
  unfold crashFileName
  rw [arg_crash_name, toString_crash_format t (by omega), hyear,
    rightJustified_number t.year.toNat 4 (by decide) (by decide) (by norm_num; omega),
    rightJustified_number t.month 2 (by decide) (by decide) (by norm_num; omega),
    rightJustified_number t.day 2 (by decide) (by decide) (by norm_num; omega),
    rightJustified_number t.hour 2 (by decide) (by decide) (by norm_num; omega),
    rightJustified_number t.minute 2 (by decide) (by decide) (by norm_num; omega)]
  simp only [List.append_assoc]

theorem crashFileName_inj (s t : QDateTime) (hs : s.wellFormed) (ht : t.wellFormed)
    (hys : 1 ≤ s.year ∧ s.year ≤ 9999) (hyt : 1 ≤ t.year ∧ t.year ≤ 9999) :
    crashFileName s = crashFileName t ↔ sameMinute s t := by
  constructor
  · intro h
    rw [crashFileName_eq s hs hys.1 hys.2, crashFileName_eq t ht hyt.1 hyt.2] at h
    have h := List.append_cancel_left h
    obtain ⟨hY, h⟩ := List.append_inj h (by simp [decimalDigits_length])
    obtain ⟨hM, h⟩ := List.append_inj h (by simp [decimalDigits_length])
    obtain ⟨hD, h⟩ := List.append_inj h (by simp [decimalDigits_length])
    have h := List.append_cancel_left h
    obtain ⟨hh, h⟩ := List.append_inj h (by simp [decimalDigits_length])
    obtain ⟨hm, _⟩ := List.append_inj h (by simp [decimalDigits_length])
    obtain ⟨_, hsM, _, hsD, hsh, hsm⟩ := hs
    obtain ⟨_, htM, _, htD, hth, htm⟩ := ht
    have eY := decimalDigits_inj 4 _ _ (by norm_num; omega) (by norm_num; omega) hY
    have eM := decimalDigits_inj 2 _ _ (by norm_num; omega) (by norm_num; omega) hM
    have eD := decimalDigits_inj 2 _ _ (by norm_num; omega) (by norm_num; omega) hD
    have eh := decimalDigits_inj 2 _ _ (by norm_num; omega) (by norm_num; omega) hh
    have em := decimalDigits_inj 2 _ _ (by norm_num; omega) (by norm_num; omega) hm
    exact ⟨by omega, eM, eD, eh, em⟩
  · rintro ⟨eY, eM, eD, eh, em⟩
    rw [crashFileName_eq s hs hys.1 hys.2, crashFileName_eq t ht hyt.1 hyt.2,
      eY, eM, eD, eh, em]

/-! ## The symbol name without symbol -/

/-- Without symbol name the fallback is `0x`, zeros, and one character made
from the low byte of `dli_saddr`; the return address does not enter. -/
theorem funcName_fallback_text (lp64 : Bool) (demangle : QString → Option QString)
    (info : Dl_info) (hnone : info.dli_sname = none) :
    funcName lp64 demangle info
      = lit "0x" ++ List.replicate (addrSize lp64 - 1) '0'
          ++ [Char.ofNat ((toLong lp64 info.dli_saddr % 256).toNat % 256)] := by
  have hfind : findArgEscapes (lit "0x%1") = some 1 := by decide
  unfold funcName argChar argString
  simp only [hnone, hfind]
  cases lp64 <;>
    simp [lit, replaceArgEscapes, escapeAt, markerDigits, digitValue, fieldText, addrSize]

/-! ## Lifecycle of `main` -/

/-- The trace of a run of `main` that passes option parsing does not depend
on the value the event loop returns. -/
theorem main_calls (mode : RunMode) (n : Bool) (loopExit : Int) :
    (main mode ⟨true, false, n⟩ loopExit).1 = (main mode ⟨true, false, n⟩ 0).1 := by
  simp [main]

/-- C1: in the monolithic build, a run of `main` that passes option parsing
constructs the core before the gui and the client, destroys the gui and the
client before the core, and the sequence of subsystems destroyed is the
reverse of the sequence of subsystems constructed. -/
theorem monolithic_construct_destroy_order (cli : CliParser) (loopExit : Int)
    (hparse : cli.parse = true) (hhelp : cli.help = false) :
    (occursOnce .coreInstance (main .Monolithic cli loopExit).1
      ∧ occursOnce .newQtUi (main .Monolithic cli loopExit).1
      ∧ occursOnce .clientInit (main .Monolithic cli loopExit).1
      ∧ occursOnce .deleteGui (main .Monolithic cli loopExit).1
      ∧ occursOnce .clientDestroy (main .Monolithic cli loopExit).1
      ∧ occursOnce .coreDestroy (main .Monolithic cli loopExit).1)
    ∧ (before .coreInstance .newQtUi (main .Monolithic cli loopExit).1
      ∧ before .coreInstance .clientInit (main .Monolithic cli loopExit).1
      ∧ before .clientInit .deleteGui (main .Monolithic cli loopExit).1
      ∧ before .deleteGui .coreDestroy (main .Monolithic cli loopExit).1
      ∧ before .clientDestroy .coreDestroy (main .Monolithic cli loopExit).1)
    ∧ (main .Monolithic cli loopExit).1.filterMap Call.constructs
        = [.service, .interactive, .interactive]
    ∧ (main .Monolithic cli loopExit).1.filterMap Call.destroys
        = [.interactive, .interactive, .service]
    ∧ (main .Monolithic cli loopExit).1.filterMap Call.destroys
        = ((main .Monolithic cli loopExit).1.filterMap Call.constructs).reverse := by
  obtain ⟨p, h, n⟩ := cli
  simp only at hparse hhelp
  subst hparse hhelp
  rw [main_calls]
  cases n <;> decide

theorem monolithic_construct_destroy_order_witness :
    (main .Monolithic ⟨true, false, false⟩ 0).1.filterMap Call.destroys
      = ((main .Monolithic ⟨true, false, false⟩ 0).1.filterMap Call.constructs).reverse :=
  (monolithic_construct_destroy_order ⟨true, false, false⟩ 0 rfl rfl).2.2.2.2

/-- C2: for every signal and every stack, the empty one included,
`handle_crash` exits with code 27; 27 is neither 0 nor the 1 that `main`
returns when parsing fails or help is asked for, and a run of `main` that
passes option parsing returns whatever the event loop returned. -/
theorem handle_crash_exit_code (lp64 : Bool) (now : QDateTime) (stack : List Nat)
    (dladdr : Nat → Dl_info) (demangle : QString → Option QString) (sig : Int)
    (mode : RunMode) (h n : Bool) (loopExit : Int) :
    (handle_crash lp64 now stack dladdr demangle sig).exitCode = 27
    ∧ (handle_crash lp64 now [] dladdr demangle sig).exitCode = 27
    ∧ (handle_crash lp64 now stack dladdr demangle sig).exitCode ≠ 0
    ∧ (main mode ⟨false, h, n⟩ loopExit).2 = 1
    ∧ (main mode ⟨true, true, n⟩ loopExit).2 = 1
    ∧ (handle_crash lp64 now stack dladdr demangle sig).exitCode
        ≠ (main mode ⟨false, h, n⟩ loopExit).2
    ∧ (handle_crash lp64 now stack dladdr demangle sig).exitCode
        ≠ (main mode ⟨true, true, n⟩ loopExit).2
    ∧ (main mode ⟨true, false, n⟩ loopExit).2 = loopExit := by
  simp [handle_crash, main]

/-- C7, as the code has it: with an interactive object, `main` calls
`resumeSessionIfPossible` once, before `app.exec()`; with a service object
and no `norestore`, it calls `Core::restoreState` once, before `app.exec()`
(and before `resumeSessionIfPossible` when there is one); with `norestore`
or without service object it does not call `Core::restoreState`. -/
theorem resume_and_restore_before_exec (mode : RunMode) (cli : CliParser)
    (loopExit : Int) (hparse : cli.parse = true) (hhelp : cli.help = false) :
    occursOnce .appExec (main mode cli loopExit).1
    ∧ (mode.hasGui = true →
        occursOnce .resumeSessionIfPossible (main mode cli loopExit).1
        ∧ before .resumeSessionIfPossible .appExec (main mode cli loopExit).1)
    ∧ (mode.hasCore = true → cli.norestore = false →
        occursOnce .coreRestoreState (main mode cli loopExit).1
        ∧ before .coreRestoreState .appExec (main mode cli loopExit).1
        ∧ (mode.hasGui = true →
            before .coreRestoreState .resumeSessionIfPossible
              (main mode cli loopExit).1))
    ∧ (mode.hasCore = false ∨ cli.norestore = true →
        Call.coreRestoreState ∉ (main mode cli loopExit).1) := by
  obtain ⟨p, h, n⟩ := cli
  simp only at hparse hhelp
  subst hparse hhelp
  rw [main_calls]
  cases mode <;> cases n <;> decide

theorem resume_and_restore_before_exec_witness :
    occursOnce .resumeSessionIfPossible (main .Monolithic ⟨true, false, false⟩ 0).1
    ∧ before .resumeSessionIfPossible .appExec (main .Monolithic ⟨true, false, false⟩ 0).1 :=
  (resume_and_restore_before_exec .Monolithic ⟨true, false, false⟩ 0 rfl rfl).2.1 rfl

/-- C7 as stated fails: in the monolithic and in the client build the only
call of `resumeSessionIfPossible` comes before `app.exec()`, not after it. -/
theorem resume_not_after_exec :
    (main .Monolithic ⟨true, false, false⟩ 0).1.indexOf .resumeSessionIfPossible = 12
    ∧ (main .Monolithic ⟨true, false, false⟩ 0).1.indexOf .appExec = 13
    ∧ (main .Monolithic ⟨true, false, false⟩ 0).1.count .resumeSessionIfPossible = 1
    ∧ ¬ before .appExec .resumeSessionIfPossible (main .Monolithic ⟨true, false, false⟩ 0).1
    ∧ ¬ before .appExec .resumeSessionIfPossible (main .ClientOnly ⟨true, false, false⟩ 0).1 := by
  decide

/-! ## The report line -/

/-- C10: when the module field has no `%`, the chained `arg` calls give the
plain concatenation of `#`, the index field, a blank, the module field,
` 0x`, the address field, a blank and the symbol name, whatever the symbol
name contains. -/
theorem debugLine_columns (lp64 : Bool) (i : Nat) (f : QString) (a : Nat) (s : QString)
    (hf : '%' ∉ f) :
    debugLine lp64 i f a s
      = lit "#" ++ indexField i ++ lit " " ++ f ++ lit " 0x" ++ addrField lp64 a
          ++ lit " " ++ s := by
  rw [debugLine_eq lp64 i f a s hf]
  simp [lit]

theorem debugLine_columns_witness :
    debugLine true 17 (lit "libQtCore.so.4      ") 4198400 (lit "%2 at %3")
      = lit "#" ++ indexField 17 ++ lit " " ++ lit "libQtCore.so.4      " ++ lit " 0x"
          ++ addrField true 4198400 ++ lit " " ++ lit "%2 at %3" :=
  debugLine_columns true 17 (lit "libQtCore.so.4      ") 4198400 (lit "%2 at %3")
    (by decide)

theorem indexField_eq_leftpad (i : Nat) (hi : i < 128) :
    indexField i = List.leftpad 3 ' ' (Nat.repr i).data := by
  interval_cases i <;> decide

/-- C8, as the code has it: for every frame index below 128 the report line
starts with `#`, then the decimal text of the index padded on the left with
blanks to three characters, then a blank. -/
theorem index_field_blank_padded (lp64 : Bool) (i : Nat) (file : QString) (addr : Nat)
    (func : QString) (hi : i < 128) :
    (List.leftpad 3 ' ' (Nat.repr i).data).length = 3
    ∧ ∃ rest, debugLine lp64 i file addr func
        = '#' :: List.leftpad 3 ' ' (Nat.repr i).data ++ ' ' :: rest := by
  constructor
  · interval_cases i <;> decide
  · rw [← indexField_eq_leftpad i hi]
    exact debugLine_start lp64 i file addr func

theorem index_field_blank_padded_witness :
    (List.leftpad 3 ' ' (Nat.repr 17).data).length = 3
    ∧ ∃ rest, debugLine true 17 (lit "???") 4198400 (lit "main")
        = '#' :: List.leftpad 3 ' ' (Nat.repr 17).data ++ ' ' :: rest :=
  index_field_blank_padded true 17 (lit "???") 4198400 (lit "main") (by decide)

/-- C8 as stated fails: frame 0 is written `#  0` and frame 17 `# 17`, with
blanks, not `#000` and `#017`. -/
theorem index_field_not_zero_padded :
    debugLine true 0 (lit "???") 4198400 (lit "main")
      = lit "#  0 ??? 0x0000000000401000 main"
    ∧ debugLine true 17 (lit "???") 4198400 (lit "main")
      = lit "# 17 ??? 0x0000000000401000 main"
    ∧ ¬ (lit "#000" <+: debugLine true 0 (lit "???") 4198400 (lit "main"))
    ∧ ¬ (lit "#017" <+: debugLine true 17 (lit "???") 4198400 (lit "main")) := by
  decide

/-- C9, as the code has it: without module file name the module field is the
marker `???`, and the report line carries it unpadded in the module column. -/
theorem module_field_without_file_name (lp64 : Bool) (i : Nat) (info : Dl_info)
    (addr : Nat) (func : QString) (hnone : info.dli_fname = none) :
    fileName info = lit "???"
    ∧ debugLine lp64 i (fileName info) addr func
        = lit "#" ++ indexField i ++ lit " ??? 0x" ++ addrField lp64 addr
          ++ lit " " ++ func := by
  have hname : fileName info = lit "???" := by
    simp [fileName, hnone]
  refine ⟨hname, ?_⟩
  rw [hname, debugLine_eq lp64 i (lit "???") addr func (by decide)]
  simp [lit]

theorem module_field_without_file_name_witness :
    fileName ⟨none, 0, some (lit "main"), 4198400⟩ = lit "???"
    ∧ debugLine true 2 (fileName ⟨none, 0, some (lit "main"), 4198400⟩) 4198400
        (lit "main")
        = lit "#" ++ indexField 2 ++ lit " ??? 0x" ++ addrField true 4198400
          ++ lit " " ++ lit "main" :=
  module_field_without_file_name true 2 ⟨none, 0, some (lit "main"), 4198400⟩ 4198400
    (lit "main") rfl

/-- C9 as stated fails: the marker is `???`, not `unknown`. -/
theorem module_marker_not_unknown :
    fileName ⟨none, 0, none, 0⟩ = lit "???"
    ∧ fileName ⟨none, 0, none, 0⟩ ≠ lit "unknown"
    ∧ debugLine true 0 (fileName ⟨none, 0, none, 0⟩) 4198400 (lit "main")
        = lit "#  0 ??? 0x0000000000401000 main" := by
  decide

/-- C3 fails on a 32-bit build for an address from `0x80000000` on: the cast
to `long` makes it negative, `arg` widens it to 64 bits and writes sixteen
digits, which read back as another number. -/
theorem addr_field_32bit_high_address :
    addrField false 3085156352 = lit "ffffffffb7e3c000"
    ∧ (addrField false 3085156352).length = 16
    ∧ addrSize false = 8
    ∧ parseHex (addrField false 3085156352) = some 18446744072499740672
    ∧ parseHex (addrField false 3085156352) ≠ some 3085156352
    ∧ debugLine false 0 (lit "???") 3085156352 (lit "main")
        = lit "#  0 ??? 0xffffffffb7e3c000 main" := by
  decide

/-- C4 fails: without symbol name the fallback is built from `dli_saddr`, not
from the return address, and through the `char` overload of `arg`: fifteen
(or seven) zeros and one character. With `dli_saddr` null, as `dladdr` leaves
it, that character is NUL; were `dli_saddr` the address `0x401041` itself,
it would be `A`. -/
theorem func_name_fallback_is_not_the_address :
    funcName true (fun _ => none) ⟨none, 0, none, 0⟩
      = lit "0x000000000000000" ++ [Char.ofNat 0]
    ∧ parseHex ((funcName true (fun _ => none) ⟨none, 0, none, 0⟩).drop 2) = none
    ∧ funcName false (fun _ => none) ⟨none, 0, none, 0⟩
      = lit "0x0000000" ++ [Char.ofNat 0]
    ∧ funcName true (fun _ => none) ⟨none, 0, none, 4198465⟩ = lit "0x000000000000000A"
    ∧ parseHex ((funcName true (fun _ => none) ⟨none, 0, none, 4198465⟩).drop 2)
        = some 10
    ∧ debugLine true 3 (fileName ⟨none, 0, none, 0⟩) 4198400
        (funcName true (fun _ => none) ⟨none, 0, none, 0⟩)
        = lit "#  3 ??? 0x0000000000401000 0x000000000000000" ++ [Char.ofNat 0] := by
  decide

/-- C5: the dump file name is `Quassel-Crash-`, the year in four digits, the
month and the day in two, a hyphen, the hour (0 to 23) and the minute in two
digits, and `.log`; it is the name of the capture time truncated to the
minute, and two capture times get the same name exactly when they fall in
the same calendar minute. Years run from 1 to 9999. -/
theorem dump_file_name_by_minute (lp64 : Bool) (s t : QDateTime) (stack : List Nat)
    (dladdr : Nat → Dl_info) (demangle : QString → Option QString) (sig : Int)
    (hs : s.wellFormed) (ht : t.wellFormed)
    (hys : 1 ≤ s.year ∧ s.year ≤ 9999) (hyt : 1 ≤ t.year ∧ t.year ≤ 9999) :
    (handle_crash lp64 s stack dladdr demangle sig).dumpFileName
      = lit "Quassel-Crash-" ++ decimalDigits 4 s.year.toNat ++ decimalDigits 2 s.month
          ++ decimalDigits 2 s.day ++ lit "-" ++ decimalDigits 2 s.hour
          ++ decimalDigits 2 s.minute ++ lit ".log"
    ∧ (handle_crash lp64 s stack dladdr demangle sig).dumpFileName
      = (handle_crash lp64 (truncateToMinute s) stack dladdr demangle sig).dumpFileName
    ∧ ((handle_crash lp64 s stack dladdr demangle sig).dumpFileName
        = (handle_crash lp64 t stack dladdr demangle sig).dumpFileName
      ↔ sameMinute s t) := by
  have hname : ∀ u : QDateTime,
      (handle_crash lp64 u stack dladdr demangle sig).dumpFileName = crashFileName u :=
    fun _ => rfl
  have htr : (truncateToMinute s).wellFormed := hs
  rw [hname s, hname t, hname (truncateToMinute s)]
  refine ⟨?_, ?_, crashFileName_inj s t hs ht hys hyt⟩
  · rw [crashFileName_eq s hs hys.1 hys.2]
    simp only [List.append_assoc]
  · exact (crashFileName_inj s (truncateToMinute s) hs htr hys hys).mpr
      ⟨rfl, rfl, rfl, rfl, rfl⟩

theorem dump_file_name_by_minute_witness :
    (handle_crash true ⟨2008, 7, 4, 9, 5, 59, 0⟩ [] (fun _ => ⟨none, 0, none, 0⟩)
        (fun _ => none) 11).dumpFileName
      = lit "Quassel-Crash-" ++ decimalDigits 4 2008 ++ decimalDigits 2 7
          ++ decimalDigits 2 4 ++ lit "-" ++ decimalDigits 2 9
          ++ decimalDigits 2 5 ++ lit ".log" :=
  (dump_file_name_by_minute true ⟨2008, 7, 4, 9, 5, 59, 0⟩ ⟨2008, 7, 4, 9, 6, 0, 0⟩ []
    (fun _ => ⟨none, 0, none, 0⟩) (fun _ => none) 11 (by decide) (by decide)
    (by decide) (by decide)).1

/-- C6 fails on the report line for a module whose file name holds a place
marker. For `/usr/lib/lib%3.so` the variable `fileName` is the final
component `lib%3.so` padded to 20 characters, but the next call of `arg`
finds the `%3` inside it and writes the address there: the module column of
the line reads `lib0000000000401000.so`, which is neither the final component
nor 20 characters long. For `lib%1.so` the address goes into the module
column alone and the symbol name lands in the address column. A `%` in a
directory of the path does no harm. -/
theorem module_column_with_place_marker :
    fileName ⟨some (lit "/usr/lib/lib%3.so"), 0, some (lit "main"), 4198400⟩
      = lit "lib%3.so            "
    ∧ finalComponent (lit "/usr/lib/lib%3.so") = lit "lib%3.so"
    ∧ debugLine true 0
        (fileName ⟨some (lit "/usr/lib/lib%3.so"), 0, some (lit "main"), 4198400⟩)
        4198400 (lit "main")
      = lit "#  0 lib0000000000401000.so             0x0000000000401000 main"
    ∧ ¬ (lit "#  0 lib%3.so" <+: debugLine true 0
        (fileName ⟨some (lit "/usr/lib/lib%3.so"), 0, some (lit "main"), 4198400⟩)
        4198400 (lit "main"))
    ∧ debugLine true 0
        (fileName ⟨some (lit "/usr/lib/lib%1.so"), 0, some (lit "main"), 4198400⟩)
        4198400 (lit "main")
      = lit "#  0 lib0000000000401000.so             0xmain %4"
    ∧ debugLine true 0
        (fileName ⟨some (lit "/opt/My%20Apps/libfoo.so"), 0, some (lit "main"), 4198400⟩)
        4198400 (lit "main")
      = lit "#  0 libfoo.so            0x0000000000401000 main" := by
  decide

end Quassel
